import Mathlib

/-!
Shallow embedding of the device-linking core of noise-rust
(client/data-abstraction): the group DAG (Group, GroupStore) and the
per-device controller (Device) with its three-phase linking protocol and
device removal.

The Device operations are translated from
src/client/data-abstraction/src/devices.rs.  The Group and GroupStore
operations live outside the provided sources (groups.rs is not included), so
they are modelled from the specification, sections 4.1 and 4.2.

Modelling conventions:
* a Rust HashSet of identities is a duplicate-free list of strings built with
  insert-if-absent and removed from by filtering;
* a Rust HashMap from String to Group is an association list whose insert
  removes any entry with the same key first, so keys stay duplicate-free;
* a Rust panic (unwrap of a missing value) is the result none, while a normal
  return of Result<(), Error> is some (device, result) carrying the device
  state after the call;
* Uuid::new_v4().to_string() is an explicit freshUuid argument.
-/

namespace Noise

/-- Modelled from the spec: one node of the access DAG (section 3, Group):
identity, classification flag, parent edge set, and an optional child edge
set whose absence encodes a leaf. -/
structure Group where
  groupId : String
  contactLevel : Bool
  parents : List String
  children : Option (List String)
deriving DecidableEq

/-- Insert an identity into an edge set modelled as a list, if not already
present (Rust HashSet insert). -/
def insertId (x : String) (xs : List String) : List String :=
  if x ∈ xs then xs else xs ++ [x]

/-- Remove an identity from an edge set modelled as a list
(Rust HashSet remove). -/
def removeId (x : String) (xs : List String) : List String :=
  xs.filter (fun y => y != x)

/-- The child edge set of a group, empty when the group is a leaf. -/
def childSet (g : Group) : List String :=
  g.children.getD []

/-- Modelled from the spec: Group construction takes the triple
(id, contact_level, is_container) and fixes children to an empty set for a
container or to none for a leaf (section 4.1). -/
def Group.new (groupId : String) (contactLevel isContainer : Bool) : Group :=
  { groupId := groupId
    contactLevel := contactLevel
    parents := []
    children := if isContainer then some [] else none }

/-- Modelled from the spec: a GroupStore is an in-memory table of Groups keyed
by identity (section 3), here an association list with duplicate-free keys. -/
abbrev GroupStore := List (String × Group)

namespace GroupStore

/-- Modelled from the spec: GroupStore construction with no groups. -/
def new : GroupStore := []

/-- Modelled from the spec: get_group, lookup of the entry for an identity. -/
def getGroup : GroupStore → String → Option Group
  | [], _ => none
  | (k, g) :: rest, gid => if k = gid then some g else getGroup rest gid

/-- Modelled from the spec: set_group inserts or overwrites the entry for an
identity, with no validation against prior edges (section 4.2). -/
def setGroup (s : GroupStore) (gid : String) (g : Group) : GroupStore :=
  (gid, g) :: s.filter (fun kv => kv.1 != gid)

/-- Modelled from the spec: delete_group removes the entry outright
(section 4.2). -/
def deleteGroup (s : GroupStore) (gid : String) : GroupStore :=
  s.filter (fun kv => kv.1 != gid)

/-- Modelled from the spec: link_groups establishes a bidirectional edge,
adding the child to the parent's children and the parent to the child's
parents (section 4.2).  The spec leaves the non-container-parent case to the
implementer (fail or no-op); this model makes it a no-op, and it is also a
no-op when either identity is absent from the store. -/
def linkGroups (s : GroupStore) (parentId childId : String) : GroupStore :=
  match getGroup s parentId, getGroup s childId with
  | some ⟨pid, pcl, pps, some cs⟩, some cg =>
    setGroup (setGroup s parentId ⟨pid, pcl, pps, some (insertId childId cs)⟩)
      childId { cg with parents := insertId parentId cg.parents }
  | _, _ => s

/-- Modelled from the spec: add_parent adds parentId to the parents of gid and
mirrors the edge by adding gid to the children of parentId (section 4.2);
no-op on a missing identity or a non-container parent, as for linkGroups. -/
def addParent (s : GroupStore) (gid parentId : String) : GroupStore :=
  match getGroup s gid, getGroup s parentId with
  | some g, some ⟨pid, pcl, pps, some cs⟩ =>
    setGroup (setGroup s gid { g with parents := insertId parentId g.parents })
      parentId ⟨pid, pcl, pps, some (insertId gid cs)⟩
  | _, _ => s

/-- Modelled from the spec: add_child adds childId to the children of gid and
mirrors the edge by adding gid to the parents of childId (section 4.2);
no-op on a missing identity or a non-container gid, as for linkGroups. -/
def addChild (s : GroupStore) (gid childId : String) : GroupStore :=
  match getGroup s gid, getGroup s childId with
  | some ⟨pid, pcl, pps, some cs⟩, some cg =>
    setGroup (setGroup s gid ⟨pid, pcl, pps, some (insertId childId cs)⟩)
      childId { cg with parents := insertId gid cg.parents }
  | _, _ => s

/-- First half of remove_child: drop childId from the children of parentId,
when that entry exists and is a container. -/
def removeChildFromParent (s : GroupStore) (parentId childId : String) : GroupStore :=
  match getGroup s parentId with
  | some ⟨pid, pcl, pps, some cs⟩ =>
    setGroup s parentId ⟨pid, pcl, pps, some (removeId childId cs)⟩
  | _ => s

/-- Modelled from the spec: remove_child removes the edge from both sides and
is a no-op when the edge does not exist (section 4.2). -/
def removeChild (s : GroupStore) (parentId childId : String) : GroupStore :=
  match getGroup (removeChildFromParent s parentId childId) childId with
  | some cg =>
    setGroup (removeChildFromParent s parentId childId) childId
      { cg with parents := removeId parentId cg.parents }
  | none => removeChildFromParent s parentId childId

/-- Modelled from the spec: group_replace rewrites every occurrence of oldId
in the group's parents and children (if present) to newId; pure edge-set
substitution that does not touch the store (section 4.2). -/
def groupReplace (g : Group) (oldId newId : String) : Group :=
  { g with
    parents := g.parents.map (fun x => if x = oldId then newId else x)
    children := g.children.map (fun cs => cs.map (fun x => if x = oldId then newId else x)) }

/-- Total number of child edges recorded in the store, used to bound the
traversal fuel of the closure computations. -/
def edgeCount (s : GroupStore) : Nat :=
  (s.map (fun kv => (childSet kv.2).length)).sum

/-- Worklist traversal collecting the leaf identities reachable by descending
child edges; visited identities are recorded to cut cycles, and identities
absent from the store are skipped. -/
def resolveIdsAux (s : GroupStore) : Nat → List String → List String → List String → List String
  | 0, _, _, leaves => leaves
  | _ + 1, [], _, leaves => leaves
  | fuel + 1, gid :: rest, visited, leaves =>
    if gid ∈ visited then resolveIdsAux s fuel rest visited leaves
    else
      match getGroup s gid with
      | none => resolveIdsAux s fuel rest (gid :: visited) leaves
      | some g =>
        match g.children with
        | none => resolveIdsAux s fuel rest (gid :: visited) (insertId gid leaves)
        | some cs => resolveIdsAux s fuel (rest ++ cs) (gid :: visited) leaves

/-- Modelled from the spec: resolve_ids computes the de-duplicated transitive
closure of all leaf identities reachable by descending child edges from the
given roots; roots that are leaves are included (section 4.2). -/
def resolveIds (s : GroupStore) (roots : List String) : List String :=
  resolveIdsAux s (roots.length + s.length + edgeCount s + 1) roots [] []

/-- Worklist traversal collecting every group reachable by descending child
edges, keyed by identity. -/
def subgroupsAux (s : GroupStore) : Nat → List String → List String → GroupStore → GroupStore
  | 0, _, _, acc => acc
  | _ + 1, [], _, acc => acc
  | fuel + 1, gid :: rest, visited, acc =>
    if gid ∈ visited then subgroupsAux s fuel rest visited acc
    else
      match getGroup s gid with
      | none => subgroupsAux s fuel rest (gid :: visited) acc
      | some g => subgroupsAux s fuel (rest ++ childSet g) (gid :: visited) (acc ++ [(gid, g)])

/-- Modelled from the spec: get_all_subgroups computes the transitive closure
of all groups (not just leaves) reachable from an identity via child edges,
including the identity itself, as a table keyed by identity (section 4.2). -/
def getAllSubgroups (s : GroupStore) (gid : String) : GroupStore :=
  subgroupsAux s (1 + s.length + edgeCount s + 1) [gid] [] []

/-- Modelled from the spec: get_all_groups returns the whole table
(section 4.2); in this model the store is already that table. -/
def getAllGroups (s : GroupStore) : GroupStore := s

/-- Lookup-level refinement between stores: every entry of the second store
comes from an entry of the first under the same key with no new parent or
child edges. -/
def LookupSub (s t : GroupStore) : Prop :=
  ∀ gid g2, getGroup t gid = some g2 →
    ∃ g0, getGroup s gid = some g0 ∧
      (∀ x, x ∈ g2.parents → x ∈ g0.parents) ∧
      (∀ x, x ∈ childSet g2 → x ∈ childSet g0)

/-- Invariant I1 of the spec (edge mirroring): for present groups P and C,
C is a child of P exactly when P is a parent of C. -/
def edgeMirrored (s : GroupStore) : Prop :=
  ∀ p c pg cg, getGroup s p = some pg → getGroup s c = some cg →
    (c ∈ childSet pg ↔ p ∈ cg.parents)

/-- Executable edge-mirroring check over the entries of a store. -/
def mirrorOk (s : GroupStore) : Bool :=
  s.all (fun pe => s.all (fun ce =>
    decide (ce.1 ∈ childSet pe.2) == decide (pe.1 ∈ ce.2.parents)))

end GroupStore

/-- Error kind of devices.rs (enum Error): attempted to delete a group
instead of a device. -/
inductive DevError where
  | deviceHasChildren
deriving DecidableEq

/-- Placeholder for the per-device DataStore collaborator; its contents are
outside this core, so it carries no information here. -/
structure DataStore where
deriving DecidableEq

/-- DataStore construction (contents external to this core). -/
def DataStore.new : DataStore := {}

/-- The per-device controller of devices.rs: its own identity, its group
store, its data store, the identity of its linked-root group, and the
optional pending-link peer. -/
structure Device where
  idkey : String
  groupStore : GroupStore
  dataStore : DataStore
  linkedName : String
  pendingLinkIdkey : Option String
deriving DecidableEq

namespace Device

open GroupStore

/-- Device::new of devices.rs: picks the linked name from the argument or the
fresh uuid, creates the linked-root container group and the leaf device
group, and links the leaf as child of the root.  freshUuid stands for
Uuid::new_v4().to_string(). -/
def new (idkey : String) (linkedNameArg : Option String)
    (pendingLinkIdkey : Option String) (freshUuid : String) : Device :=
  let linkedName := linkedNameArg.getD freshUuid
  let s0 : GroupStore := GroupStore.new
  let s1 := setGroup s0 linkedName (Group.new linkedName false true)
  let s2 := setGroup s1 idkey (Group.new idkey false false)
  let s3 := linkGroups s2 linkedName idkey
  { idkey := idkey
    groupStore := s3
    dataStore := DataStore.new
    linkedName := linkedName
    pendingLinkIdkey := pendingLinkIdkey }

/-- linked_devices of devices.rs: the leaf closure over the linked name. -/
def linkedDevices (d : Device) : List String :=
  resolveIds d.groupStore [d.linkedName]

/-- linked_devices_excluding_self of devices.rs: the leaf closure over the
linked name with the device's own idkey filtered out. -/
def linkedDevicesExcludingSelf (d : Device) : List String :=
  (resolveIds d.groupStore [d.linkedName]).filter (fun x => x != d.idkey)

/-- linked_devices_excluding_self_and_other of devices.rs: the leaf closure
over the linked name with the device's own idkey and one further identity
filtered out. -/
def linkedDevicesExcludingSelfAndOther (d : Device) (other : String) : List String :=
  (resolveIds d.groupStore [d.linkedName]).filter (fun x => x != d.idkey && x != other)

/-- update_linked_group of devices.rs (receiver side A).  The sender argument
is unused by the body, as in the source.  The entry for tempLinkedName is
extracted (its absence is an unwrap panic, modelled as none), every remaining
entry is rewritten with groupReplace and installed, and the extracted temp
root's parents and children are merged into the permanent linked-root group;
unwrap of the temp root's children is the second panic point. -/
def updateLinkedGroup (d : Device) (sender tempLinkedName : String)
    (membersToAdd : GroupStore) : Option (Device × Except DevError Unit) :=
  let permLinkedName := d.linkedName
  match getGroup membersToAdd tempLinkedName with
  | none => none
  | some tempLinkedGroup =>
    match tempLinkedGroup.children with
    | none => none
    | some tempChildren =>
      let members := deleteGroup membersToAdd tempLinkedName
      let members := members.map (fun kv => (kv.1, groupReplace kv.2 tempLinkedName permLinkedName))
      let s1 := members.foldl (fun s kv => setGroup s kv.1 kv.2) d.groupStore
      let s2 := tempLinkedGroup.parents.foldl (fun s p => addParent s permLinkedName p) s1
      let s3 := tempChildren.foldl (fun s c => addChild s permLinkedName c) s2
      some ({ d with groupStore := s3 }, Except.ok ())

/-- confirm_update_linked_group of devices.rs (joining side B): deletes the
entry under the previous linked name, adopts the new linked name, installs
every provided group, and clears the pending link; always returns Ok. -/
def confirmUpdateLinkedGroup (d : Device) (newLinkedName : String)
    (newGroups : GroupStore) : Device × Except DevError Unit :=
  let s1 := deleteGroup d.groupStore d.linkedName
  let s2 := newGroups.foldl (fun s kv => setGroup s kv.1 kv.2) s1
  ({ d with groupStore := s2, linkedName := newLinkedName, pendingLinkIdkey := none },
   Except.ok ())

/-- delete_device of devices.rs: unwrap of the missing target is a panic
(modelled as none); a container target returns Err(DeviceHasChildren) with
the store untouched; a leaf target has the child edge removed from every
parent and its own entry deleted, then Ok. -/
def deleteDevice (d : Device) (toDelete : String) : Option (Device × Except DevError Unit) :=
  match getGroup d.groupStore toDelete with
  | none => none
  | some deviceGroup =>
    match deviceGroup.children with
    | some _ => some (d, Except.error DevError.deviceHasChildren)
    | none =>
      let s1 := deviceGroup.parents.foldl (fun s p => removeChild s p toDelete) d.groupStore
      let s2 := deleteGroup s1 toDelete
      some ({ d with groupStore := s2 }, Except.ok ())

end Device

/-- A device, reachable through the public operations, that no longer appears
in its own linked-devices closure: device 0 after delete_device of itself. -/
def selfDeletedDevice : Device :=
  ((Device.deleteDevice (Device.new "0" (some "L") none "u") "0").getD
    (⟨"", [], ⟨⟩, "", none⟩, Except.ok ())).1

end Noise

namespace Noise

namespace GroupStore

theorem getGroup_filterKey (s : GroupStore) (k gid : String) (h : k ≠ gid) :
    getGroup (s.filter (fun kv => kv.1 != k)) gid = getGroup s gid := by
  induction s with
  | nil => rfl
  | cons kv rest ih =>
    obtain ⟨k0, g0⟩ := kv
    by_cases hk : k0 = k
    · subst hk
      have hg : k0 ≠ gid := h
      simp [getGroup, hg, ih]
    · simp only [List.filter_cons]
      have : (k0 != k) = true := by simp [hk]
      rw [this]
      by_cases hgid : k0 = gid
      · subst hgid; simp [getGroup]
      · simp [getGroup, hgid, ih]

theorem getGroup_setGroup (s : GroupStore) (k : String) (g : Group) (gid : String) :
    getGroup (setGroup s k g) gid = if k = gid then some g else getGroup s gid := by
  by_cases hk : k = gid
  · subst hk; simp [setGroup, getGroup]
  · simp [setGroup, getGroup, hk, getGroup_filterKey _ _ _ hk]

theorem getGroup_deleteGroup (s : GroupStore) (k : String) (gid : String) :
    getGroup (deleteGroup s k) gid = if k = gid then none else getGroup s gid := by
  by_cases hk : k = gid
  · subst hk
    rw [if_pos rfl]
    unfold deleteGroup
    induction s with
    | nil => rfl
    | cons kv rest ih =>
      obtain ⟨k0, g0⟩ := kv
      by_cases h0 : k0 = k
      · subst h0; simp [getGroup, ih]
      · simp [getGroup, h0, ih]
  · simp [deleteGroup, hk, getGroup_filterKey _ _ _ hk]

end GroupStore

end Noise

namespace Noise

namespace GroupStore

theorem getGroup_eq_none_of_not_mem_keys (l : GroupStore) (k : String)
    (h : k ∉ l.map Prod.fst) : getGroup l k = none := by
  induction l with
  | nil => rfl
  | cons kv rest ih =>
    simp only [List.map_cons, List.mem_cons] at h
    push_neg at h
    obtain ⟨h1, h2⟩ := h
    obtain ⟨k0, g0⟩ := kv
    have : k0 ≠ k := fun he => h1 (by simp [he])
    simp [getGroup, this, ih h2]

theorem getGroup_foldl_setGroup_none (l : GroupStore) (s : GroupStore) (k : String)
    (h : getGroup l k = none) :
    getGroup (l.foldl (fun s kv => setGroup s kv.1 kv.2) s) k = getGroup s k := by
  induction l generalizing s with
  | nil => rfl
  | cons kv rest ih =>
    obtain ⟨k0, g0⟩ := kv
    simp only [getGroup] at h
    by_cases h0 : k0 = k
    · simp [h0] at h
    · simp only [if_neg h0] at h
      simp only [List.foldl_cons]
      rw [ih _ h, getGroup_setGroup, if_neg h0]

theorem getGroup_foldl_setGroup_some (l : GroupStore) (s : GroupStore) (k : String)
    (g : Group) (hnd : (l.map Prod.fst).Nodup) (h : getGroup l k = some g) :
    getGroup (l.foldl (fun s kv => setGroup s kv.1 kv.2) s) k = some g := by
  induction l generalizing s with
  | nil => simp [getGroup] at h
  | cons kv rest ih =>
    obtain ⟨k0, g0⟩ := kv
    simp only [List.map_cons, List.nodup_cons] at hnd
    obtain ⟨hk0, hndr⟩ := hnd
    simp only [getGroup] at h
    by_cases h0 : k0 = k
    · subst h0
      simp only [eq_self_iff_true, if_true, Option.some.injEq] at h
      simp only [List.foldl_cons]
      rw [getGroup_foldl_setGroup_none rest _ k0
          (getGroup_eq_none_of_not_mem_keys rest k0 hk0)]
      rw [getGroup_setGroup, if_pos rfl, h]
      
    · simp only [if_neg h0] at h
      simp only [List.foldl_cons]
      exact ih _ hndr h

end GroupStore

open GroupStore Device

/-- Claim C2: update_linked_group leaves the linked_name field unchanged on
every input on which it returns. -/
theorem claim_C2_update_preserves_linked_name
    (d : Device) (sender tempLinkedName : String) (membersToAdd : GroupStore)
    (d2 : Device) (r : Except DevError Unit)
    (h : updateLinkedGroup d sender tempLinkedName membersToAdd = some (d2, r)) :
    d2.linkedName = d.linkedName := by
  cases hg : getGroup membersToAdd tempLinkedName with
  | none => simp [updateLinkedGroup, hg] at h
  | some tg =>
    cases hc : tg.children with
    | none => simp [updateLinkedGroup, hg, hc] at h
    | some cs =>
      simp only [updateLinkedGroup, hg, hc, Option.some.injEq, Prod.mk.injEq] at h
      obtain ⟨hd, -⟩ := h
      rw [← hd]

/-- Claim C3: delete_device on a container group (children present) returns
the DeviceHasChildren error and returns the device unchanged. -/
theorem claim_C3_delete_container_fails
    (d : Device) (toDelete : String) (g : Group) (cs : List String)
    (hg : getGroup d.groupStore toDelete = some g)
    (hc : g.children = some cs) :
    deleteDevice d toDelete = some (d, Except.error DevError.deviceHasChildren) := by
  simp [deleteDevice, hg, hc]

/-- Claim C5: on a lookup miss the code panics instead of returning a typed
error: update_linked_group with a table lacking the temp root, and
delete_device on an absent identity, both evaluate to none (the model of a
Rust unwrap panic), not to a typed Err result. -/
theorem claim_C5_lookup_miss_panics :
    updateLinkedGroup (Device.new "0" (some "L") none "u") "s" "t" [] = none ∧
    deleteDevice (Device.new "0" (some "L") none "u") "zzz" = none := by
  constructor <;> rfl

/-- Claim C9: whenever update_linked_group returns, it returns Ok, and
confirm_update_linked_group always returns Ok and applies its mutations even
with no pending link. -/
theorem claim_C9_update_confirm_always_ok :
    (∀ (d : Device) (sender tempLinkedName : String) (membersToAdd : GroupStore)
       (d2 : Device) (r : Except DevError Unit),
       updateLinkedGroup d sender tempLinkedName membersToAdd = some (d2, r) →
       r = Except.ok ()) ∧
    (∀ (d : Device) (newLinkedName : String) (newGroups : GroupStore),
       (confirmUpdateLinkedGroup d newLinkedName newGroups).2 = Except.ok ()) := by
  constructor
  · intro d sender tempLinkedName membersToAdd d2 r h
    cases hg : getGroup membersToAdd tempLinkedName with
    | none => simp [updateLinkedGroup, hg] at h
    | some tg =>
      cases hc : tg.children with
      | none => simp [updateLinkedGroup, hg, hc] at h
      | some cs =>
        simp only [updateLinkedGroup, hg, hc, Option.some.injEq, Prod.mk.injEq] at h
        exact h.2.symm
  · intro d newLinkedName newGroups
    rfl

/-- Claim C6: confirm_update_linked_group deletes the entry under the old
linked name, adopts the new linked name, installs every provided group
(overwriting), clears the pending link, and returns Ok.  The key-nodup
hypothesis models the Rust HashMap input. -/
theorem claim_C6_confirm_characterization
    (d : Device) (newLinkedName : String) (newGroups : GroupStore)
    (hnd : (newGroups.map Prod.fst).Nodup) :
    ∃ d2 : Device,
      confirmUpdateLinkedGroup d newLinkedName newGroups = (d2, Except.ok ()) ∧
      d2.linkedName = newLinkedName ∧
      d2.pendingLinkIdkey = none ∧
      d2.idkey = d.idkey ∧
      (∀ k g, getGroup newGroups k = some g → getGroup d2.groupStore k = some g) ∧
      (∀ k, getGroup newGroups k = none →
        getGroup d2.groupStore k =
          if k = d.linkedName then none else getGroup d.groupStore k) := by
  refine ⟨(confirmUpdateLinkedGroup d newLinkedName newGroups).1, rfl, rfl, rfl, rfl, ?_, ?_⟩
  · intro k g h
    show getGroup (newGroups.foldl (fun s kv => setGroup s kv.1 kv.2)
      (deleteGroup d.groupStore d.linkedName)) k = some g
    exact getGroup_foldl_setGroup_some newGroups _ k g hnd h
  · intro k h
    show getGroup (newGroups.foldl (fun s kv => setGroup s kv.1 kv.2)
      (deleteGroup d.groupStore d.linkedName)) k =
        if k = d.linkedName then none else getGroup d.groupStore k
    rw [getGroup_foldl_setGroup_none newGroups _ k h, getGroup_deleteGroup]
    by_cases hk : d.linkedName = k
    · subst hk; simp
    · rw [if_neg hk, if_neg (fun he => hk he.symm)]

end Noise

namespace Noise

theorem mem_insertId {x y : String} {xs : List String} (h : x ∈ insertId y xs) :
    x = y ∨ x ∈ xs := by
  unfold insertId at h
  by_cases hm : y ∈ xs
  · rw [if_pos hm] at h; exact Or.inr h
  · rw [if_neg hm] at h
    rcases List.mem_append.mp h with h1 | h1
    · exact Or.inr h1
    · simp at h1; exact Or.inl h1

theorem mem_of_mem_removeId {x y : String} {xs : List String} (h : x ∈ removeId y xs) :
    x ∈ xs :=
  (List.mem_filter.mp h).1

theorem not_mem_removeId_self (y : String) (xs : List String) : y ∉ removeId y xs := by
  intro h
  have h2 := (List.mem_filter.mp h).2
  simp at h2

namespace GroupStore

theorem removeChildFromParent_none {s : GroupStore} {p : String} (c : String)
    (h : getGroup s p = none) : removeChildFromParent s p c = s := by
  unfold removeChildFromParent; rw [h]

theorem removeChildFromParent_leaf {s : GroupStore} {p : String} (c : String)
    {pid : String} {pcl : Bool} {pps : List String}
    (h : getGroup s p = some ⟨pid, pcl, pps, none⟩) :
    removeChildFromParent s p c = s := by
  unfold removeChildFromParent; rw [h]

theorem removeChildFromParent_cont {s : GroupStore} {p : String} (c : String)
    {pid : String} {pcl : Bool} {pps : List String} {cs : List String}
    (h : getGroup s p = some ⟨pid, pcl, pps, some cs⟩) :
    removeChildFromParent s p c = setGroup s p ⟨pid, pcl, pps, some (removeId c cs)⟩ := by
  unfold removeChildFromParent; rw [h]

theorem removeChild_found {s : GroupStore} {p c : String} {cg : Group}
    (h : getGroup (removeChildFromParent s p c) c = some cg) :
    removeChild s p c =
      setGroup (removeChildFromParent s p c) c { cg with parents := removeId p cg.parents } := by
  unfold removeChild; rw [h]

theorem removeChild_notfound {s : GroupStore} {p c : String}
    (h : getGroup (removeChildFromParent s p c) c = none) :
    removeChild s p c = removeChildFromParent s p c := by
  unfold removeChild; rw [h]

theorem lookupSub_refl (s : GroupStore) : LookupSub s s :=
  fun _ g2 h => ⟨g2, h, fun _ hx => hx, fun _ hx => hx⟩

theorem lookupSub_trans {s t u : GroupStore} (h1 : LookupSub s t) (h2 : LookupSub t u) :
    LookupSub s u := by
  intro gid g2 h
  obtain ⟨g1, hg1, hp1, hc1⟩ := h2 gid g2 h
  obtain ⟨g0, hg0, hp0, hc0⟩ := h1 gid g1 hg1
  exact ⟨g0, hg0, fun x hx => hp0 x (hp1 x hx), fun x hx => hc0 x (hc1 x hx)⟩

theorem lookupSub_setGroup (s : GroupStore) (k : String) (g g1 : Group)
    (hk : getGroup s k = some g)
    (hp : ∀ x, x ∈ g1.parents → x ∈ g.parents)
    (hc : ∀ x, x ∈ childSet g1 → x ∈ childSet g) :
    LookupSub s (setGroup s k g1) := by
  intro gid g2 h
  rw [getGroup_setGroup] at h
  by_cases hkid : k = gid
  · subst hkid
    rw [if_pos rfl] at h
    obtain rfl : g1 = g2 := by injection h
    exact ⟨g, hk, hp, hc⟩
  · rw [if_neg hkid] at h
    exact ⟨g2, h, fun _ hx => hx, fun _ hx => hx⟩

theorem lookupSub_removeChildFromParent (s : GroupStore) (p c : String) :
    LookupSub s (removeChildFromParent s p c) := by
  cases h1 : getGroup s p with
  | none => rw [removeChildFromParent_none c h1]; exact lookupSub_refl s
  | some pg =>
    obtain ⟨pid, pcl, pps, pch⟩ := pg
    cases pch with
    | none => rw [removeChildFromParent_leaf c h1]; exact lookupSub_refl s
    | some cs =>
      rw [removeChildFromParent_cont c h1]
      refine lookupSub_setGroup s p _ _ h1 (fun x hx => hx) ?_
      intro x hx
      simp only [childSet, Option.getD_some] at hx ⊢
      exact mem_of_mem_removeId hx

theorem lookupSub_removeChild (s : GroupStore) (p c : String) :
    LookupSub s (removeChild s p c) := by
  have hph1 := lookupSub_removeChildFromParent s p c
  cases h2 : getGroup (removeChildFromParent s p c) c with
  | none => rw [removeChild_notfound h2]; exact hph1
  | some cg =>
    rw [removeChild_found h2]
    refine lookupSub_trans hph1 ?_
    refine lookupSub_setGroup _ c cg _ h2 ?_ (fun x hx => hx)
    intro x hx
    exact mem_of_mem_removeId hx

/-- After remove_child, the parent entry (if still present) no longer lists
the child. -/
theorem removeChild_childAbsent (s : GroupStore) (p c : String) :
    ∀ g2, getGroup (removeChild s p c) p = some g2 → c ∉ childSet g2 := by
  have habs : ∀ g1, getGroup (removeChildFromParent s p c) p = some g1 →
      c ∉ childSet g1 := by
    intro g1 h
    cases h1 : getGroup s p with
    | none =>
      rw [removeChildFromParent_none c h1, h1] at h
      exact absurd h (by simp)
    | some pg =>
      obtain ⟨pid, pcl, pps, pch⟩ := pg
      cases pch with
      | none =>
        rw [removeChildFromParent_leaf c h1, h1] at h
        obtain rfl : (⟨pid, pcl, pps, none⟩ : Group) = g1 := by injection h
        simp [childSet]
      | some cs =>
        rw [removeChildFromParent_cont c h1, getGroup_setGroup, if_pos rfl] at h
        obtain rfl : (⟨pid, pcl, pps, some (removeId c cs)⟩ : Group) = g1 := by injection h
        simp only [childSet, Option.getD_some]
        exact not_mem_removeId_self c cs
  intro g2 h
  cases h2 : getGroup (removeChildFromParent s p c) c with
  | none => rw [removeChild_notfound h2] at h; exact habs g2 h
  | some cg =>
    rw [removeChild_found h2, getGroup_setGroup] at h
    by_cases hcp : c = p
    · subst hcp
      rw [if_pos rfl] at h
      obtain rfl : { cg with parents := removeId c cg.parents } = g2 := by injection h
      have h3 := habs cg h2
      simpa [childSet] using h3
    · rw [if_neg hcp] at h
      exact habs g2 h

theorem lookupSub_foldl_removeChild (ps : List String) (s : GroupStore) (c : String) :
    LookupSub s (ps.foldl (fun t q => removeChild t q c) s) := by
  induction ps generalizing s with
  | nil => exact lookupSub_refl s
  | cons q qs ih =>
    exact lookupSub_trans (lookupSub_removeChild s q c) (ih (removeChild s q c))

theorem foldl_removeChild_childAbsent (ps : List String) (s : GroupStore) (c p : String)
    (hp : ∀ g1, getGroup s p = some g1 → c ∉ childSet g1) :
    ∀ g2, getGroup (ps.foldl (fun t q => removeChild t q c) s) p = some g2 →
      c ∉ childSet g2 := by
  induction ps generalizing s with
  | nil => exact hp
  | cons q qs ih =>
    refine ih (removeChild s q c) ?_
    intro g1 h
    obtain ⟨g0, hg0, -, hc0⟩ := lookupSub_removeChild s q c p g1 h
    intro hmem
    exact hp g0 hg0 (hc0 c hmem)

theorem foldl_removeChild_processed (ps : List String) (s : GroupStore) (c : String) :
    ∀ p ∈ ps, ∀ g2, getGroup (ps.foldl (fun t q => removeChild t q c) s) p = some g2 →
      c ∉ childSet g2 := by
  induction ps generalizing s with
  | nil => intro p hp; exact absurd hp (by simp)
  | cons q qs ih =>
    intro p hp g2 h
    rcases List.mem_cons.mp hp with he | hm
    · subst he
      exact foldl_removeChild_childAbsent qs (removeChild s p c) c p
        (removeChild_childAbsent s p c) g2 h
    · exact ih (removeChild s q c) p hm g2 h

end GroupStore

end Noise

namespace Noise

namespace GroupStore

theorem resolveIdsAux_cons (s : GroupStore) (n : Nat) (gid : String)
    (rest visited leaves : List String) :
    resolveIdsAux s (n + 1) (gid :: rest) visited leaves =
      if gid ∈ visited then resolveIdsAux s n rest visited leaves
      else
        match getGroup s gid with
        | none => resolveIdsAux s n rest (gid :: visited) leaves
        | some g =>
          match g.children with
          | none => resolveIdsAux s n rest (gid :: visited) (insertId gid leaves)
          | some cs => resolveIdsAux s n (rest ++ cs) (gid :: visited) leaves := rfl

/-- Every identity the leaf closure returns has an entry in the store (given
the empty initial leaf accumulator). -/
theorem mem_resolveIdsAux (s : GroupStore) :
    ∀ (fuel : Nat) (wl visited leaves : List String) (x : String),
      x ∈ resolveIdsAux s fuel wl visited leaves →
      x ∈ leaves ∨ ∃ g, getGroup s x = some g := by
  intro fuel
  induction fuel with
  | zero => intro wl visited leaves x h; exact Or.inl h
  | succ n ih =>
    intro wl visited leaves x h
    cases wl with
    | nil => exact Or.inl h
    | cons gid rest =>
      rw [resolveIdsAux_cons] at h
      by_cases hv : gid ∈ visited
      · rw [if_pos hv] at h
        exact ih rest visited leaves x h
      · rw [if_neg hv] at h
        cases hgg : getGroup s gid with
        | none =>
          rw [hgg] at h
          exact ih rest (gid :: visited) leaves x h
        | some g =>
          rw [hgg] at h
          obtain ⟨gid0, cl0, ps0, ch0⟩ := g
          cases ch0 with
          | none =>
            rcases ih rest (gid :: visited) (insertId gid leaves) x h with hl | hgx
            · rcases mem_insertId hl with rfl | hl2
              · exact Or.inr ⟨_, hgg⟩
              · exact Or.inl hl2
            · exact Or.inr hgx
          | some cs =>
            exact ih (rest ++ cs) (gid :: visited) leaves x h

theorem mem_resolveIds_exists (s : GroupStore) (roots : List String) (x : String)
    (h : x ∈ resolveIds s roots) : ∃ g, getGroup s x = some g := by
  rcases mem_resolveIdsAux s _ roots [] [] x h with hl | hg
  · exact absurd hl (by simp)
  · exact hg

end GroupStore

open GroupStore Device

/-- Claim C4: on a store satisfying edge mirroring, delete_device of a leaf
returns Ok, removes the target from every former parent's children, deletes
the target's entry, and leaves no remaining group whose parent or child set
mentions the target. -/
theorem claim_C4_delete_leaf_clean
    (d : Device) (toDelete : String) (g : Group)
    (hm : edgeMirrored d.groupStore)
    (hg : getGroup d.groupStore toDelete = some g)
    (hc : g.children = none) :
    ∃ d2 : Device,
      deleteDevice d toDelete = some (d2, Except.ok ()) ∧
      getGroup d2.groupStore toDelete = none ∧
      (∀ p, p ∈ g.parents → ∀ pg, getGroup d2.groupStore p = some pg →
        toDelete ∉ childSet pg) ∧
      (∀ gid g2, getGroup d2.groupStore gid = some g2 →
        toDelete ∉ g2.parents ∧ toDelete ∉ childSet g2) := by
  refine ⟨⟨d.idkey,
      deleteGroup (g.parents.foldl (fun t q => removeChild t q toDelete) d.groupStore)
        toDelete,
      d.dataStore, d.linkedName, d.pendingLinkIdkey⟩, ?_, ?_, ?_, ?_⟩
  · simp [deleteDevice, hg, hc]
  · show getGroup (deleteGroup _ toDelete) toDelete = none
    rw [getGroup_deleteGroup, if_pos rfl]
  · intro p hp pg hpg
    have hpg2 : getGroup (g.parents.foldl (fun t q => removeChild t q toDelete)
        d.groupStore) p = some pg := by
      rw [getGroup_deleteGroup] at hpg
      by_cases ht : toDelete = p
      · rw [if_pos ht] at hpg; exact absurd hpg (by simp)
      · rwa [if_neg ht] at hpg
    exact foldl_removeChild_processed g.parents d.groupStore toDelete p hp pg hpg2
  · intro gid g2 hg2
    have hg2f : getGroup (g.parents.foldl (fun t q => removeChild t q toDelete)
        d.groupStore) gid = some g2 := by
      rw [getGroup_deleteGroup] at hg2
      by_cases ht : toDelete = gid
      · rw [if_pos ht] at hg2; exact absurd hg2 (by simp)
      · rwa [if_neg ht] at hg2
    obtain ⟨g0, hg0, hps, hcs⟩ :=
      lookupSub_foldl_removeChild g.parents d.groupStore toDelete gid g2 hg2f
    constructor
    · intro hmem
      have hmem0 := hps toDelete hmem
      have hiff := hm toDelete gid g g0 hg hg0
      have : gid ∈ childSet g := hiff.mpr hmem0
      rw [childSet, hc] at this
      simp at this
    · intro hmem
      have hmem0 := hcs toDelete hmem
      have hiff := hm gid toDelete g0 g hg0 hg
      have hpar : gid ∈ g.parents := hiff.mp hmem0
      exact foldl_removeChild_processed g.parents d.groupStore toDelete gid hpar g2 hg2f hmem

/-- Claim C10: delete_device makes no exception for the calling device's own
identity: deleting the device's own leaf entry succeeds, removes it from the
store and from every former parent's children, and afterwards linked_devices
no longer contains idkey even though the idkey field still holds it. -/
theorem claim_C10_self_delete
    (d : Device) (g : Group)
    (hg : getGroup d.groupStore d.idkey = some g)
    (hc : g.children = none) :
    ∃ d2 : Device,
      deleteDevice d d.idkey = some (d2, Except.ok ()) ∧
      d2.idkey = d.idkey ∧
      getGroup d2.groupStore d.idkey = none ∧
      (∀ p, p ∈ g.parents → ∀ pg, getGroup d2.groupStore p = some pg →
        d.idkey ∉ childSet pg) ∧
      d.idkey ∉ linkedDevices d2 := by
  refine ⟨⟨d.idkey,
      deleteGroup (g.parents.foldl (fun t q => removeChild t q d.idkey) d.groupStore)
        d.idkey,
      d.dataStore, d.linkedName, d.pendingLinkIdkey⟩, ?_, rfl, ?_, ?_, ?_⟩
  · simp [deleteDevice, hg, hc]
  · show getGroup (deleteGroup _ d.idkey) d.idkey = none
    rw [getGroup_deleteGroup, if_pos rfl]
  · intro p hp pg hpg
    have hpg2 : getGroup (g.parents.foldl (fun t q => removeChild t q d.idkey)
        d.groupStore) p = some pg := by
      rw [getGroup_deleteGroup] at hpg
      by_cases ht : d.idkey = p
      · rw [if_pos ht] at hpg; exact absurd hpg (by simp)
      · rwa [if_neg ht] at hpg
    exact foldl_removeChild_processed g.parents d.groupStore d.idkey p hp pg hpg2
  · intro hmem
    obtain ⟨g2, hg2⟩ := mem_resolveIds_exists _ _ _ hmem
    rw [show getGroup (deleteGroup (g.parents.foldl (fun t q => removeChild t q d.idkey)
        d.groupStore) d.idkey) d.idkey = none by
      rw [getGroup_deleteGroup, if_pos rfl]] at hg2
    exact absurd hg2 (by simp)

end Noise

namespace Noise

open GroupStore Device

theorem new_store_eq (idkey : String) (lnArg : Option String) (pending : Option String)
    (u : String) (hne : idkey ≠ lnArg.getD u) :
    (Device.new idkey lnArg pending u).groupStore =
      [(idkey, ⟨idkey, false, [lnArg.getD u], none⟩),
       (lnArg.getD u, ⟨lnArg.getD u, false, [], some [idkey]⟩)] := by
  have hne2 : lnArg.getD u ≠ idkey := Ne.symm hne
  simp [Device.new, GroupStore.new, setGroup, getGroup, linkGroups, Group.new, insertId,
    hne, hne2]

theorem new_store_eq_deg (idkey : String) (lnArg : Option String) (pending : Option String)
    (u : String) (heq : idkey = lnArg.getD u) :
    (Device.new idkey lnArg pending u).groupStore =
      [(idkey, ⟨idkey, false, [], none⟩)] := by
  simp [Device.new, GroupStore.new, setGroup, getGroup, linkGroups, Group.new, insertId,
    ← heq]

end Noise

namespace Noise

open GroupStore Device

theorem new_linkedDevices (idkey : String) (lnArg : Option String)
    (pending : Option String) (u : String) (hne : idkey ≠ lnArg.getD u) :
    linkedDevices (Device.new idkey lnArg pending u) = [idkey] := by
  have hne2 : lnArg.getD u ≠ idkey := Ne.symm hne
  have hln : (Device.new idkey lnArg pending u).linkedName = lnArg.getD u := rfl
  rw [linkedDevices, hln, new_store_eq idkey lnArg pending u hne]
  simp [resolveIds, resolveIdsAux, edgeCount, childSet, getGroup, insertId, hne, hne2]

theorem new_linkedDevices_deg (idkey : String) (lnArg : Option String)
    (pending : Option String) (u : String) (heq : idkey = lnArg.getD u) :
    linkedDevices (Device.new idkey lnArg pending u) = [idkey] := by
  have hln : (Device.new idkey lnArg pending u).linkedName = lnArg.getD u := rfl
  rw [linkedDevices, hln, new_store_eq_deg idkey lnArg pending u heq, ← heq]
  simp [resolveIds, resolveIdsAux, edgeCount, childSet, getGroup, insertId]

end Noise

namespace Noise

open GroupStore Device

/-- Claim C7 (amended): Device::new with distinct idkey and linked name yields
the container root group with the leaf as only child, the leaf group with the
root as only parent, the linked name from the argument or the fresh value,
the pending link as given, and a one-element linked-devices closure. -/
theorem claim_C7_new_characterization (idkey : String) (lnArg : Option String)
    (pending : Option String) (u : String) (hne : idkey ≠ lnArg.getD u) :
    (Device.new idkey lnArg pending u).idkey = idkey ∧
    (Device.new idkey lnArg pending u).linkedName = lnArg.getD u ∧
    (Device.new idkey lnArg pending u).pendingLinkIdkey = pending ∧
    getGroup (Device.new idkey lnArg pending u).groupStore (lnArg.getD u) =
      some ⟨lnArg.getD u, false, [], some [idkey]⟩ ∧
    getGroup (Device.new idkey lnArg pending u).groupStore idkey =
      some ⟨idkey, false, [lnArg.getD u], none⟩ ∧
    linkedDevices (Device.new idkey lnArg pending u) = [idkey] := by
  have hne2 : lnArg.getD u ≠ idkey := Ne.symm hne
  refine ⟨rfl, rfl, rfl, ?_, ?_, new_linkedDevices idkey lnArg pending u hne⟩
  · rw [new_store_eq idkey lnArg pending u hne]
    simp [getGroup, hne]
  · rw [new_store_eq idkey lnArg pending u hne]
    simp [getGroup]

/-- Claim C7 (counterexample): with idkey equal to the supplied linked name,
the store holds no container group under the linked name with the idkey as
child — the leaf entry overwrote it. -/
theorem claim_C7_counterexample :
    ¬ ∃ g, getGroup (Device.new "x" (some "x") none "u").groupStore "x" = some g ∧
        g.children = some ["x"] := by
  intro h
  obtain ⟨g, hg, hc⟩ := h
  rw [show getGroup (Device.new "x" (some "x") none "u").groupStore "x" =
      some ⟨"x", false, [], none⟩ from rfl] at hg
  obtain rfl : (⟨"x", false, [], none⟩ : Group) = g := by injection hg
  exact absurd hc (by simp)

/-- Witness for claim C7 at concrete distinct identities. -/
theorem claim_C7_witness :
    "0" ≠ (some "L" : Option String).getD "u" ∧
    ((Device.new "0" (some "L") none "u").idkey = "0" ∧
     (Device.new "0" (some "L") none "u").linkedName = (some "L" : Option String).getD "u" ∧
     (Device.new "0" (some "L") none "u").pendingLinkIdkey = none ∧
     getGroup (Device.new "0" (some "L") none "u").groupStore
         ((some "L" : Option String).getD "u") =
       some ⟨(some "L" : Option String).getD "u", false, [], some ["0"]⟩ ∧
     getGroup (Device.new "0" (some "L") none "u").groupStore "0" =
       some ⟨"0", false, [(some "L" : Option String).getD "u"], none⟩ ∧
     linkedDevices (Device.new "0" (some "L") none "u") = ["0"]) :=
  ⟨by decide, claim_C7_new_characterization "0" (some "L") none "u" (by decide)⟩

/-- Claim C8 (amended): linked_devices is the leaf closure over the linked
name; the excluding variants are that closure minus the device's own idkey
and minus the extra identity; a freshly constructed device's closure always
contains its idkey. -/
theorem claim_C8_membership_queries :
    (∀ d : Device, linkedDevices d = resolveIds d.groupStore [d.linkedName]) ∧
    (∀ (d : Device) (x : String), x ∈ linkedDevicesExcludingSelf d ↔
      x ∈ linkedDevices d ∧ x ≠ d.idkey) ∧
    (∀ (d : Device) (other x : String), x ∈ linkedDevicesExcludingSelfAndOther d other ↔
      x ∈ linkedDevices d ∧ x ≠ d.idkey ∧ x ≠ other) ∧
    (∀ (idkey : String) (lnArg pending : Option String) (u : String),
      (Device.new idkey lnArg pending u).idkey ∈
        linkedDevices (Device.new idkey lnArg pending u)) := by
  refine ⟨fun d => rfl, ?_, ?_, ?_⟩
  · intro d x
    simp [linkedDevicesExcludingSelf, linkedDevices, List.mem_filter]
  · intro d other x
    simp [linkedDevicesExcludingSelfAndOther, linkedDevices, List.mem_filter, and_assoc]
  · intro idkey lnArg pending u
    by_cases hne : idkey = lnArg.getD u
    · rw [show (Device.new idkey lnArg pending u).idkey = idkey from rfl,
        new_linkedDevices_deg idkey lnArg pending u hne]
      simp
    · rw [show (Device.new idkey lnArg pending u).idkey = idkey from rfl,
        new_linkedDevices idkey lnArg pending u hne]
      simp

/-- Claim C8 (counterexample): after deleting its own leaf, a device's
linked_devices closure no longer contains its idkey, refuting the claim that
every device's closure includes its own idkey. -/
theorem claim_C8_counterexample :
    Device.deleteDevice (Device.new "0" (some "L") none "u") "0" =
      some (selfDeletedDevice, Except.ok ()) ∧
    selfDeletedDevice.idkey ∉ linkedDevices selfDeletedDevice := by
  constructor
  · rfl
  · decide

end Noise

namespace Noise

open GroupStore Device

/-- Claim C1: after standalone device A merges B's exported hierarchy and B
confirms with A's post-merge table, the get_all_subgroups closures over the
shared linked root agree on both devices, for any pairwise distinct
identities. -/
theorem claim_C1_merge_convergence (a la b lb uA uB : String)
    (h1 : a ≠ la) (h2 : a ≠ b) (h3 : a ≠ lb) (h4 : la ≠ b) (h5 : la ≠ lb) (h6 : b ≠ lb) :
    ∃ dA2 : Device,
      updateLinkedGroup (Device.new a (some la) none uA) b lb
          (getAllSubgroups (Device.new b (some lb) (some la) uB).groupStore lb) =
        some (dA2, Except.ok ()) ∧
      ∀ k, getGroup (getAllSubgroups dA2.groupStore la) k =
        getGroup (getAllSubgroups
          ((confirmUpdateLinkedGroup (Device.new b (some lb) (some la) uB) la
              dA2.groupStore).1).groupStore la) k := by
  have hs1 : la ≠ a := Ne.symm h1
  have hs2 : b ≠ a := Ne.symm h2
  have hs3 : lb ≠ a := Ne.symm h3
  have hs4 : b ≠ la := Ne.symm h4
  have hs5 : lb ≠ la := Ne.symm h5
  have hs6 : lb ≠ b := Ne.symm h6
  have hexp : getAllSubgroups (Device.new b (some lb) (some la) uB).groupStore lb =
      [(lb, ⟨lb, false, [], some [b]⟩), (b, ⟨b, false, [lb], none⟩)] := by
    rw [show (Device.new b (some lb) (some la) uB).groupStore =
        [(b, ⟨b, false, [lb], none⟩), (lb, ⟨lb, false, [], some [b]⟩)] from
      new_store_eq b (some lb) (some la) uB h6]
    simp [getAllSubgroups, subgroupsAux, edgeCount, childSet, getGroup, insertId, h6, hs6]
  refine ⟨⟨a, [(b, ⟨b, false, [la], none⟩), (la, ⟨la, false, [], some [a, b]⟩),
      (a, ⟨a, false, [la], none⟩)], DataStore.new, la, none⟩, ?_, ?_⟩
  · rw [hexp]
    have hsA : (Device.new a (some la) none uA).groupStore =
        [(a, ⟨a, false, [la], none⟩), (la, ⟨la, false, [], some [a]⟩)] :=
      new_store_eq a (some la) none uA h1
    have hln : (Device.new a (some la) none uA).linkedName = la := rfl
    simp [updateLinkedGroup, hln, hsA, getGroup, deleteGroup, groupReplace, setGroup,
      addParent, addChild, insertId, childSet,
      h1, h2, h3, h4, h5, h6, hs1, hs2, hs3, hs4, hs5, hs6, Device.new, GroupStore.new,
      linkGroups, Group.new]
  · have hA : getAllSubgroups [(b, (⟨b, false, [la], none⟩ : Group)),
        (la, ⟨la, false, [], some [a, b]⟩), (a, ⟨a, false, [la], none⟩)] la =
        [(la, ⟨la, false, [], some [a, b]⟩), (a, ⟨a, false, [la], none⟩),
         (b, ⟨b, false, [la], none⟩)] := by
      simp [getAllSubgroups, subgroupsAux, edgeCount, childSet, getGroup, insertId,
        h1, h2, h4, hs1, hs2, hs4]
    have hconf : ((confirmUpdateLinkedGroup (Device.new b (some lb) (some la) uB) la
        [(b, (⟨b, false, [la], none⟩ : Group)), (la, ⟨la, false, [], some [a, b]⟩),
         (a, ⟨a, false, [la], none⟩)]).1).groupStore =
        [(a, (⟨a, false, [la], none⟩ : Group)), (la, ⟨la, false, [], some [a, b]⟩),
         (b, ⟨b, false, [la], none⟩)] := by
      have hsB : (Device.new b (some lb) (some la) uB).groupStore =
          [(b, ⟨b, false, [lb], none⟩), (lb, ⟨lb, false, [], some [b]⟩)] :=
        new_store_eq b (some lb) (some la) uB h6
      have hlnB : (Device.new b (some lb) (some la) uB).linkedName = lb := rfl
      simp [confirmUpdateLinkedGroup, hlnB, hsB, deleteGroup, setGroup,
        h1, h2, h3, h4, h5, h6, hs1, hs2, hs3, hs4, hs5, hs6]
    have hB : getAllSubgroups [(a, (⟨a, false, [la], none⟩ : Group)),
        (la, ⟨la, false, [], some [a, b]⟩), (b, ⟨b, false, [la], none⟩)] la =
        [(la, ⟨la, false, [], some [a, b]⟩), (a, ⟨a, false, [la], none⟩),
         (b, ⟨b, false, [la], none⟩)] := by
      simp [getAllSubgroups, subgroupsAux, edgeCount, childSet, getGroup, insertId,
        h1, h2, h4, hs1, hs2, hs4]
    intro k
    rw [show (⟨a, [(b, (⟨b, false, [la], none⟩ : Group)),
        (la, ⟨la, false, [], some [a, b]⟩), (a, ⟨a, false, [la], none⟩)],
        DataStore.new, la, none⟩ : Device).groupStore =
        [(b, (⟨b, false, [la], none⟩ : Group)), (la, ⟨la, false, [], some [a, b]⟩),
         (a, ⟨a, false, [la], none⟩)] from rfl]
    rw [hA, hconf, hB]

end Noise

namespace Noise

namespace GroupStore

theorem getGroup_mem (s : GroupStore) (p : String) (pg : Group)
    (h : getGroup s p = some pg) : (p, pg) ∈ s := by
  induction s with
  | nil => exact absurd h (by simp [getGroup])
  | cons kv rest ih =>
    obtain ⟨k0, g0⟩ := kv
    by_cases hk : k0 = p
    · subst hk
      rw [getGroup, if_pos rfl] at h
      obtain rfl : g0 = pg := by injection h
      exact List.mem_cons_self _ _
    · rw [getGroup, if_neg hk] at h
      exact List.mem_cons_of_mem _ (ih h)

theorem edgeMirrored_of_mirrorOk (s : GroupStore) (h : mirrorOk s = true) :
    edgeMirrored s := by
  intro p c pg cg hp hc
  have hpm := getGroup_mem s p pg hp
  have hcm := getGroup_mem s c cg hc
  have h1 := (List.all_eq_true.mp h) (p, pg) hpm
  have h2 := (List.all_eq_true.mp h1) (c, cg) hcm
  have h3 : decide (c ∈ childSet pg) = decide (p ∈ cg.parents) := by
    simpa using h2
  exact decide_eq_decide.mp h3

end GroupStore

open GroupStore Device

/-- Witness for claim C1 at concrete distinct identities. -/
theorem claim_C1_witness :
    (("a" : String) ≠ "la" ∧ ("a" : String) ≠ "b" ∧ ("a" : String) ≠ "lb" ∧
     ("la" : String) ≠ "b" ∧ ("la" : String) ≠ "lb" ∧ ("b" : String) ≠ "lb") ∧
    (∃ dA2 : Device,
      updateLinkedGroup (Device.new "a" (some "la") none "u") "b" "lb"
          (getAllSubgroups (Device.new "b" (some "lb") (some "la") "v").groupStore "lb") =
        some (dA2, Except.ok ()) ∧
      ∀ k, getGroup (getAllSubgroups dA2.groupStore "la") k =
        getGroup (getAllSubgroups
          ((confirmUpdateLinkedGroup (Device.new "b" (some "lb") (some "la") "v") "la"
              dA2.groupStore).1).groupStore "la") k) :=
  ⟨⟨by decide, by decide, by decide, by decide, by decide, by decide⟩,
   claim_C1_merge_convergence "a" "la" "b" "lb" "u" "v"
     (by decide) (by decide) (by decide) (by decide) (by decide) (by decide)⟩

/-- Witness for claim C2 at a concrete merge input. -/
theorem claim_C2_witness :
    updateLinkedGroup (Device.new "a" (some "la") none "u") "b" "lb"
        [("lb", ⟨"lb", false, [], some ["b"]⟩), ("b", ⟨"b", false, ["lb"], none⟩)] =
      some (⟨"a", [("b", ⟨"b", false, ["la"], none⟩),
          ("la", ⟨"la", false, [], some ["a", "b"]⟩),
          ("a", ⟨"a", false, ["la"], none⟩)], DataStore.new, "la", none⟩,
        Except.ok ()) ∧
    (⟨"a", [("b", (⟨"b", false, ["la"], none⟩ : Group)),
        ("la", ⟨"la", false, [], some ["a", "b"]⟩),
        ("a", ⟨"a", false, ["la"], none⟩)], DataStore.new, "la", none⟩ : Device).linkedName =
      (Device.new "a" (some "la") none "u").linkedName :=
  ⟨rfl, claim_C2_update_preserves_linked_name (Device.new "a" (some "la") none "u")
    "b" "lb"
    [("lb", ⟨"lb", false, [], some ["b"]⟩), ("b", ⟨"b", false, ["lb"], none⟩)]
    ⟨"a", [("b", ⟨"b", false, ["la"], none⟩),
      ("la", ⟨"la", false, [], some ["a", "b"]⟩),
      ("a", ⟨"a", false, ["la"], none⟩)], DataStore.new, "la", none⟩
    (Except.ok ()) rfl⟩

/-- Witness for claim C3: deleting the container root fails. -/
theorem claim_C3_witness :
    getGroup (Device.new "0" (some "L") none "u").groupStore "L" =
      some ⟨"L", false, [], some ["0"]⟩ ∧
    (⟨"L", false, [], some ["0"]⟩ : Group).children = some ["0"] ∧
    deleteDevice (Device.new "0" (some "L") none "u") "L" =
      some (Device.new "0" (some "L") none "u",
        Except.error DevError.deviceHasChildren) :=
  ⟨rfl, rfl, claim_C3_delete_container_fails _ _ _ ["0"] rfl rfl⟩

/-- Witness for claim C4: deleting the leaf of a freshly constructed device. -/
theorem claim_C4_witness :
    edgeMirrored (Device.new "0" (some "L") none "u").groupStore ∧
    getGroup (Device.new "0" (some "L") none "u").groupStore "0" =
      some ⟨"0", false, ["L"], none⟩ ∧
    (⟨"0", false, ["L"], none⟩ : Group).children = none ∧
    (∃ d2 : Device,
      deleteDevice (Device.new "0" (some "L") none "u") "0" =
        some (d2, Except.ok ()) ∧
      getGroup d2.groupStore "0" = none ∧
      (∀ p, p ∈ (⟨"0", false, ["L"], none⟩ : Group).parents →
        ∀ pg, getGroup d2.groupStore p = some pg → "0" ∉ childSet pg) ∧
      (∀ gid g2, getGroup d2.groupStore gid = some g2 →
        "0" ∉ g2.parents ∧ "0" ∉ childSet g2)) := by
  have hm : edgeMirrored (Device.new "0" (some "L") none "u").groupStore :=
    edgeMirrored_of_mirrorOk _ (by decide)
  exact ⟨hm, rfl, rfl, claim_C4_delete_leaf_clean _ "0" _ hm rfl rfl⟩

/-- Witness for claim C6 at a concrete confirmation input. -/
theorem claim_C6_witness :
    ((([("X", (⟨"X", false, [], some []⟩ : Group))] : GroupStore).map Prod.fst).Nodup) ∧
    (∃ d2 : Device,
      confirmUpdateLinkedGroup (Device.new "0" (some "L") none "u") "M"
          [("X", ⟨"X", false, [], some []⟩)] = (d2, Except.ok ()) ∧
      d2.linkedName = "M" ∧
      d2.pendingLinkIdkey = none ∧
      d2.idkey = (Device.new "0" (some "L") none "u").idkey ∧
      (∀ k g, getGroup [("X", (⟨"X", false, [], some []⟩ : Group))] k = some g →
        getGroup d2.groupStore k = some g) ∧
      (∀ k, getGroup [("X", (⟨"X", false, [], some []⟩ : Group))] k = none →
        getGroup d2.groupStore k =
          if k = (Device.new "0" (some "L") none "u").linkedName then none
          else getGroup (Device.new "0" (some "L") none "u").groupStore k)) :=
  ⟨by decide, claim_C6_confirm_characterization _ "M" _ (by decide)⟩

/-- Witness for claim C9 at a concrete merge input. -/
theorem claim_C9_witness :
    updateLinkedGroup (Device.new "a" (some "la") none "u") "b" "lb"
        [("lb", ⟨"lb", false, [], some ["b"]⟩), ("b", ⟨"b", false, ["lb"], none⟩)] =
      some (⟨"a", [("b", ⟨"b", false, ["la"], none⟩),
          ("la", ⟨"la", false, [], some ["a", "b"]⟩),
          ("a", ⟨"a", false, ["la"], none⟩)], DataStore.new, "la", none⟩,
        Except.ok ()) ∧
    (Except.ok () : Except DevError Unit) = Except.ok () ∧
    (confirmUpdateLinkedGroup (Device.new "a" (some "la") none "u") "M" []).2 =
      Except.ok () :=
  ⟨rfl, claim_C9_update_confirm_always_ok.1 (Device.new "a" (some "la") none "u")
    "b" "lb"
    [("lb", ⟨"lb", false, [], some ["b"]⟩), ("b", ⟨"b", false, ["lb"], none⟩)]
    ⟨"a", [("b", ⟨"b", false, ["la"], none⟩),
      ("la", ⟨"la", false, [], some ["a", "b"]⟩),
      ("a", ⟨"a", false, ["la"], none⟩)], DataStore.new, "la", none⟩
    (Except.ok ()) rfl,
   claim_C9_update_confirm_always_ok.2 (Device.new "a" (some "la") none "u") "M" []⟩

/-- Witness for claim C10: a fresh device deletes its own leaf entry. -/
theorem claim_C10_witness :
    getGroup (Device.new "0" (some "L") none "u").groupStore
      (Device.new "0" (some "L") none "u").idkey = some ⟨"0", false, ["L"], none⟩ ∧
    (⟨"0", false, ["L"], none⟩ : Group).children = none ∧
    (∃ d2 : Device,
      deleteDevice (Device.new "0" (some "L") none "u")
          (Device.new "0" (some "L") none "u").idkey = some (d2, Except.ok ()) ∧
      d2.idkey = (Device.new "0" (some "L") none "u").idkey ∧
      getGroup d2.groupStore (Device.new "0" (some "L") none "u").idkey = none ∧
      (∀ p, p ∈ (⟨"0", false, ["L"], none⟩ : Group).parents →
        ∀ pg, getGroup d2.groupStore p = some pg →
          (Device.new "0" (some "L") none "u").idkey ∉ childSet pg) ∧
      (Device.new "0" (some "L") none "u").idkey ∉ linkedDevices d2) :=
  ⟨rfl, rfl, claim_C10_self_delete _ _ rfl rfl⟩

end Noise
